import Mathlib

/-!
Verification development for `nickel-jwt-session` (an experimental
middleware for jwt-based login for the nickel web framework).

The middleware, transport and session-accessor layer is translated from
`src/lib.rs`.  Strings and byte strings are represented as `List Nat`
(byte values), timestamps as `Nat` (seconds since the epoch, `u64` in the
source).  The token codec (signing, base64url, HMAC) lives in the external
`jwt` crate and is modelled from the specification where noted.
-/

/-- All entries of a byte list are actual bytes. -/
def bytesOk (l : List Nat) : Prop := ∀ x ∈ l, x < 256

instance (l : List Nat) : Decidable (bytesOk l) :=
  List.decidableBAll _ l

/-- `2 ^ 64`, the modulus of the `u64` values used by the `jwt` crate. -/
def W64 : Nat := 18446744073709551616

/-- A well-formed byte string: bytes only, `u64`-sized length. -/
def strOk (s : List Nat) : Prop := bytesOk s ∧ s.length < W64

instance (s : List Nat) : Decidable (strOk s) := by
  unfold strOk; infer_instance

/-- Modelled from the spec: the base64url alphabet (RFC 4648 §5) used for
the three token segments; encodes a 6-bit value to an ASCII byte. -/
def alphaEnc (s : Nat) : Nat :=
  if s < 26 then 65 + s
  else if s < 52 then 97 + (s - 26)
  else if s < 62 then 48 + (s - 52)
  else if s = 62 then 45
  else 95

/-- Modelled from the spec: inverse of the base64url alphabet; `none` on a
byte outside the alphabet. -/
def alphaDec (c : Nat) : Option Nat :=
  if 65 ≤ c ∧ c ≤ 90 then some (c - 65)
  else if 97 ≤ c ∧ c ≤ 122 then some (26 + (c - 97))
  else if 48 ≤ c ∧ c ≤ 57 then some (52 + (c - 48))
  else if c = 45 then some 62
  else if c = 95 then some 63
  else none

/-- Modelled from the spec: unpadded base64url encoding of a byte string
(three bytes become four alphabet characters; a final one or two bytes
become two or three characters). -/
def b64encode : List Nat → List Nat
  | [] => []
  | [a] => [alphaEnc (a / 4), alphaEnc (a % 4 * 16)]
  | [a, b] => [alphaEnc (a / 4), alphaEnc (a % 4 * 16 + b / 16), alphaEnc (b % 16 * 4)]
  | a :: b :: c :: rest =>
      alphaEnc (a / 4) :: alphaEnc (a % 4 * 16 + b / 16) ::
      alphaEnc (b % 16 * 4 + c / 64) :: alphaEnc (c % 64) :: b64encode rest

/-- Modelled from the spec: unpadded base64url decoding; `none` when the
length is `1 (mod 4)` or a character is outside the alphabet. -/
def b64decode : List Nat → Option (List Nat)
  | [] => some []
  | [c1, c2] =>
      match alphaDec c1, alphaDec c2 with
      | some s1, some s2 => some [s1 * 4 + s2 / 16]
      | _, _ => none
  | [c1, c2, c3] =>
      match alphaDec c1, alphaDec c2, alphaDec c3 with
      | some s1, some s2, some s3 =>
          some [s1 * 4 + s2 / 16, s2 % 16 * 16 + s3 / 4]
      | _, _, _ => none
  | c1 :: c2 :: c3 :: c4 :: rest =>
      match alphaDec c1, alphaDec c2, alphaDec c3, alphaDec c4, b64decode rest with
      | some s1, some s2, some s3, some s4, some tail =>
          some ((s1 * 4 + s2 / 16) :: (s2 % 16 * 16 + s3 / 4) :: (s3 % 4 * 64 + s4) :: tail)
      | _, _, _, _, _ => none
  | [_] => none

/-- Modelled from the spec: the registered jwt claims that `make_token` in
`src/lib.rs` fills in (`iss`, `sub`, `exp`, `nbf`, the `Registered` struct
of the external `jwt` crate).  String claims are byte strings, time claims
are `u64` seconds since the epoch. -/
structure Registered where
  iss : Option (List Nat)
  sub : Option (List Nat)
  exp : Option Nat
  nbf : Option Nat
deriving DecidableEq, Repr

/-- An optional string claim is well formed when the string is. -/
def optStrOk : Option (List Nat) → Prop
  | none => True
  | some s => strOk s

instance : (o : Option (List Nat)) → Decidable (optStrOk o)
  | none => isTrue trivial
  | some s => inferInstanceAs (Decidable (strOk s))

/-- An optional numeric claim is well formed when it fits in a `u64`. -/
def optNatOk : Option Nat → Prop
  | none => True
  | some n => n < W64

instance : (o : Option Nat) → Decidable (optNatOk o)
  | none => isTrue trivial
  | some n => inferInstanceAs (Decidable (n < W64))

/-- A well-formed claim set: the values representable by the Rust types
(`Option<String>` of bytes, `Option<u64>`). -/
def Registered.wf (c : Registered) : Prop :=
  optStrOk c.iss ∧ optStrOk c.sub ∧ optNatOk c.exp ∧ optNatOk c.nbf

instance (c : Registered) : Decidable c.wf := by
  unfold Registered.wf; infer_instance

/-- A `u64` value as eight little-endian bytes. -/
def natToBytes8 (n : Nat) : List Nat :=
  [n % 256, n / 256 % 256, n / 65536 % 256, n / 16777216 % 256,
   n / 4294967296 % 256, n / 1099511627776 % 256,
   n / 281474976710656 % 256, n / 72057594037927936 % 256]

/-- Recombine eight little-endian bytes into a value. -/
def natOfBytes8 (b0 b1 b2 b3 b4 b5 b6 b7 : Nat) : Nat :=
  b0 + 256 * b1 + 65536 * b2 + 16777216 * b3 + 4294967296 * b4 +
  1099511627776 * b5 + 281474976710656 * b6 + 72057594037927936 * b7

/-- Read a `u64` (eight bytes) off the front of a byte list. -/
def deserNat8 : List Nat → Option (Nat × List Nat)
  | b0 :: b1 :: b2 :: b3 :: b4 :: b5 :: b6 :: b7 :: rest =>
      some (natOfBytes8 b0 b1 b2 b3 b4 b5 b6 b7, rest)
  | _ => none

/-- Length-prefixed serialization of a byte string. -/
def serBytes (s : List Nat) : List Nat := natToBytes8 s.length ++ s

/-- Read a length-prefixed byte string off the front of a byte list. -/
def deserBytes (l : List Nat) : Option (List Nat × List Nat) :=
  match deserNat8 l with
  | some (n, r) => if n ≤ r.length then some (r.take n, r.drop n) else none
  | none => none

/-- Serialization of an optional string claim: a presence tag, then the
length-prefixed string. -/
def serOptStr : Option (List Nat) → List Nat
  | none => [0]
  | some s => 1 :: serBytes s

/-- Read an optional string claim off the front of a byte list. -/
def deserOptStr : List Nat → Option (Option (List Nat) × List Nat)
  | 0 :: r => some (none, r)
  | 1 :: r =>
      match deserBytes r with
      | some (s, r2) => some (some s, r2)
      | none => none
  | _ => none

/-- Serialization of an optional numeric claim: a presence tag, then the
value as eight bytes. -/
def serOptNat : Option Nat → List Nat
  | none => [0]
  | some n => 1 :: natToBytes8 n

/-- Read an optional numeric claim off the front of a byte list. -/
def deserOptNat : List Nat → Option (Option Nat × List Nat)
  | 0 :: r => some (none, r)
  | 1 :: r =>
      match deserNat8 r with
      | some (n, r2) => some (some n, r2)
      | none => none
  | _ => none

/-- Modelled from the spec: the claims-JSON payload of §6 (keys `iss`,
`sub`, `exp`, `nbf`), represented as an injective byte-level encoding of
the claim set with an explicit decoder. -/
def encodeClaims (c : Registered) : List Nat :=
  serOptStr c.iss ++ serOptStr c.sub ++ serOptNat c.exp ++ serOptNat c.nbf

/-- Modelled from the spec: decoder of the claims payload; `none` when the
payload is not exactly an encoded claim set. -/
def decodeClaims (l : List Nat) : Option Registered :=
  match deserOptStr l with
  | none => none
  | some (iss, r1) =>
    match deserOptStr r1 with
    | none => none
    | some (sub, r2) =>
      match deserOptNat r2 with
      | none => none
      | some (exp, r3) =>
        match deserOptNat r3 with
        | none => none
        | some (nbf, r4) =>
          match r4 with
          | [] => some ⟨iss, sub, exp, nbf⟩
          | _ => none

/-- Modelled from the spec: the fixed algorithm header
`\x7b"alg":"HS256","typ":"JWT"\x7d` as its ASCII bytes. -/
def headerBytes : List Nat :=
  [123, 34, 97, 108, 103, 34, 58, 34, 72, 83, 50, 53, 54, 34, 44,
   34, 116, 121, 112, 34, 58, 34, 74, 87, 84, 34, 125]

/-- Modelled from the spec: the HMAC-SHA-256 message authentication code
over the signed portion of the token.  The cryptographic hash itself is
external to this repository; it is modelled as a concrete deterministic
keyed digest producing an eight-byte tag, which is all the token-lifecycle
claims depend on. -/
def macDigest (key msg : List Nat) : List Nat :=
  natToBytes8
    ((key ++ 54 :: msg).foldl (fun a b => (a * 131 + b + 17) % W64) 99194853094755497)

/-- Modelled from the spec: the signed portion of the token, the header
segment and the claims segment joined by the `.` separator (byte 46). -/
def signedInput (c : Registered) : List Nat :=
  b64encode headerBytes ++ 46 :: b64encode (encodeClaims c)

/-- Modelled from the spec: `sign(claims, secret)` — the signed portion
followed by a third base64url segment holding the message authentication
code over it (`Token::signed` in the external `jwt` crate, called by
`make_token` in `src/lib.rs`). -/
def signToken (c : Registered) (key : List Nat) : List Nat :=
  signedInput c ++ 46 :: b64encode (macDigest key (signedInput c))

/-- The codec error taxonomy of the spec. -/
inductive TokenError where
  | Malformed
  | BadSignature
deriving DecidableEq, Repr

/-- Result of verifying a token string. -/
inductive TokenResult where
  | ok (claims : Registered)
  | err (e : TokenError)
deriving DecidableEq, Repr

/-- Split a byte string on the `.` separator (byte 46). -/
def splitDots : List Nat → List (List Nat)
  | [] => [[]]
  | x :: xs =>
      if x = 46 then [] :: splitDots xs
      else
        match splitDots xs with
        | s :: rest => (x :: s) :: rest
        | [] => [[x]]

/-- Modelled from the spec: `verify(token, secret)` — split into exactly
three segments, check each is valid base64url, recompute the message
authentication code over the first two segments and compare it with the
third, then decode the payload segment into a claim set.  Time-window
validity is not checked here. -/
def verifyToken (tok key : List Nat) : TokenResult :=
  match splitDots tok with
  | [seg1, seg2, seg3] =>
    match b64decode seg1, b64decode seg2, b64decode seg3 with
    | some _, some payload, some sig =>
      if sig = macDigest key (seg1 ++ 46 :: seg2) then
        match decodeClaims payload with
        | some claims => .ok claims
        | none => .err .Malformed
      else .err .BadSignature
    | _, _, _ => .err .Malformed
  | _ => .err .Malformed
/-- Modelled from the spec: places the token could be located.  The
`Cookie` variant is the one declared in `src/lib.rs` (`TokenLocation`);
the `AuthorizationHeader` variant is used by the repository's examples but
its declaration is absent from `src/lib.rs`, so it is modelled from the
spec (§3, §4.3): a read-only transport whose token is the raw value of an
authorization-style request header. -/
inductive TokenLocation where
  | Cookie (name : List Nat)
  | AuthorizationHeader
deriving DecidableEq, Repr

/-- The middleware itself (`SessionMiddleware` in `src/lib.rs`): signing
key, optional issuer claim, validity duration in seconds, and the
transport location of the token. -/
structure SessionMiddleware where
  server_key : List Nat
  issuer : Option (List Nat)
  expiration_time : Nat
  location : TokenLocation
deriving DecidableEq, Repr

/-- The inbound request surface the middleware consumes: the parsed
`Cookie` header (a list of name/value pairs, in header order) when
present, and the raw value of the authorization-style header when
present. -/
structure RequestModel where
  cookies : Option (List (List Nat × List Nat))
  authHeader : Option (List Nat)
deriving DecidableEq, Repr

/-- The request-scoped session (`Session` in `src/lib.rs`). -/
structure Session where
  authorized_user : List Nat
deriving DecidableEq, Repr

/-- The loop body of `get_cookie` in `src/lib.rs`: first cookie whose name
equals the wanted name exactly. -/
def cookieLookup (name : List Nat) : List (List Nat × List Nat) → Option (List Nat)
  | [] => none
  | c :: rest => if c.1 = name then some c.2 else cookieLookup name rest

/-- `get_cookie` in `src/lib.rs`: `none` when the request has no `Cookie`
header, otherwise the value of the first cookie with the wanted name. -/
def get_cookie (req : RequestModel) (name : List Nat) : Option (List Nat) :=
  match req.cookies with
  | some cs => cookieLookup name cs
  | none => none

/-- The `let jwtstr = match self.location` step of `Middleware::invoke` in
`src/lib.rs`.  The `AuthorizationHeader` arm is modelled from the spec
(§4.3): return the raw header value, no scheme stripping. -/
def readToken (sm : SessionMiddleware) (req : RequestModel) : Option (List Nat) :=
  match sm.location with
  | .Cookie name => get_cookie req name
  | .AuthorizationHeader => req.authHeader

/-- The terminal state of the per-request token state machine; each state
is observable in `Middleware::invoke` as a distinct log statement or the
session insertion. -/
inductive Outcome where
  | noToken
  | malformed
  | sigInvalid
  | notYetValid
  | expired
  | verified
deriving DecidableEq, Repr

/-- What a middleware invocation may do with the request chain.  The
source's `MiddlewareResult` also admits halting with a response or
erroring; `invoke` in `src/lib.rs` only ever continues. -/
inductive MiddlewareAction where
  | Continue
  | Halt
  | Error
deriving DecidableEq, Repr

/-- Everything observable about one `Middleware::invoke` call: the action
returned, the session inserted into the request extensions (if any), the
middleware configuration inserted into the response extensions, and the
terminal state reached. -/
structure InvokeResult where
  action : MiddlewareAction
  session : Option Session
  resConfig : Option SessionMiddleware
  outcome : Outcome
deriving DecidableEq, Repr

/-- The `now < nbf` rejection test of `Middleware::invoke` (false when the
token carries no `nbf` claim). -/
def nbfRejects (c : Registered) (now : Nat) : Bool :=
  match c.nbf with
  | some nbf => now < nbf
  | none => false

/-- The `now > exp` rejection test of `Middleware::invoke` (false when the
token carries no `exp` claim). -/
def expRejects (c : Registered) (now : Nat) : Bool :=
  match c.exp with
  | some exp => exp < now
  | none => false

/-- `Middleware::invoke` in `src/lib.rs`: attach the configuration to the
response, read the token from the configured location, parse and check the
signature, apply the `nbf` and `exp` window, and insert a session carrying
the `sub` claim when one is present; every branch continues the chain.
The clock read (`current_numeric_date`) is passed in as `now`. -/
def invoke (sm : SessionMiddleware) (req : RequestModel) (now : Nat) : InvokeResult :=
  match readToken sm req with
  | none => ⟨.Continue, none, some sm, .noToken⟩
  | some jwtstr =>
    match verifyToken jwtstr sm.server_key with
    | .err .Malformed => ⟨.Continue, none, some sm, .malformed⟩
    | .err .BadSignature => ⟨.Continue, none, some sm, .sigInvalid⟩
    | .ok claims =>
      if nbfRejects claims now then ⟨.Continue, none, some sm, .notYetValid⟩
      else if expRejects claims now then ⟨.Continue, none, some sm, .expired⟩
      else ⟨.Continue, claims.sub.map Session.mk, some sm, .verified⟩

/-- `SessionRequestExtensions::authorized_user` in `src/lib.rs`: the user
of the session stored in the request extensions, if any. -/
def authorized_user (ext : Option Session) : Option (List Nat) :=
  match ext with
  | some session => some session.authorized_user
  | none => none

/-- One cookie of a `SetCookie` response header (`CookiePair` of the
`cookie` crate): name, value, and optional `Max-Age` in seconds. -/
structure CookiePair where
  name : List Nat
  value : List Nat
  max_age : Option Nat
deriving DecidableEq, Repr

/-- The outbound response surface the extension methods touch: the
configuration stored in the response extensions by `invoke`, and the
`SetCookie` header (`res.set` replaces it wholesale). -/
structure ResponseModel where
  config : Option SessionMiddleware
  setCookie : Option (List CookiePair)
deriving DecidableEq, Repr

/-- `SessionMiddleware::make_token` in `src/lib.rs`: claims with the
configured issuer, the given user as `sub`, `exp = now + expiration_time`
and `nbf = now`, signed with the server key.  The source returns
`token.signed(..).ok()`; per the spec (§4.1) signing has no failure mode,
so the model always returns `some`. -/
def make_token (sm : SessionMiddleware) (user : List Nat) (now : Nat) : Option (List Nat) :=
  some (signToken
    { iss := sm.issuer
      sub := some user
      exp := some (now + sm.expiration_time)
      nbf := some now } sm.server_key)

/-- `SessionResponseExtensions::set_jwt_user` in `src/lib.rs`: when a
configuration is attached and its location is a cookie, set the `SetCookie`
header to that one cookie carrying the freshly minted token with
`max_age = expiration_time`; otherwise leave the response alone. -/
def set_jwt_user (res : ResponseModel) (user : List Nat) (now : Nat) : ResponseModel :=
  let lte :=
    match res.config with
    | some sm => (some sm.location, make_token sm user now, some sm.expiration_time)
    | none => (none, none, none)
  match lte with
  | (some (TokenLocation.Cookie name), some token, some expiration) =>
      { res with setCookie := some [⟨name, token, some expiration⟩] }
  | _ => res

/-- `SessionResponseExtensions::clear_jwt_user` in `src/lib.rs`: when a
configuration is attached and its location is a cookie, set the `SetCookie`
header to that one cookie with empty value and `max_age = 0`; otherwise
leave the response alone.  The `AuthorizationHeader` arm is modelled from
the spec (§4.3): clearing is a no-op for that transport. -/
def clear_jwt_user (res : ResponseModel) : ResponseModel :=
  let location :=
    match res.config with
    | some sm => some sm.location
    | none => none
  match location with
  | some (TokenLocation.Cookie name) =>
      { res with setCookie := some [⟨name, [], some 0⟩] }
  | some TokenLocation.AuthorizationHeader => res
  | none => res
theorem alphaDec_alphaEnc : ∀ s, s < 64 → alphaDec (alphaEnc s) = some s := by
  decide

theorem dot_ne_alphaEnc (s : Nat) : 46 ≠ alphaEnc s := by
  unfold alphaEnc
  split_ifs <;> omega

theorem b64encode_no_dot : ∀ l : List Nat, 46 ∉ b64encode l := by
  intro l
  induction l using b64encode.induct with
  | case1 => simp [b64encode]
  | case2 a => simp [b64encode, dot_ne_alphaEnc]
  | case3 a b => simp [b64encode, dot_ne_alphaEnc]
  | case4 a b c rest ih => simp [b64encode, dot_ne_alphaEnc, ih]

theorem b64_roundtrip :
    ∀ l : List Nat, bytesOk l → b64decode (b64encode l) = some l := by
  intro l
  induction l using b64encode.induct with
  | case1 => intro _; rfl
  | case2 a =>
    intro h
    have ha : a < 256 := h a (by simp)
    have e1 : alphaDec (alphaEnc (a / 4)) = some (a / 4) :=
      alphaDec_alphaEnc _ (by omega)
    have e2 : alphaDec (alphaEnc (a % 4 * 16)) = some (a % 4 * 16) :=
      alphaDec_alphaEnc _ (by omega)
    simp only [b64encode, b64decode, e1, e2]
    have : a / 4 * 4 + a % 4 * 16 / 16 = a := by omega
    rw [this]
  | case3 a b =>
    intro h
    have ha : a < 256 := h a (by simp)
    have hb : b < 256 := h b (by simp)
    have e1 : alphaDec (alphaEnc (a / 4)) = some (a / 4) :=
      alphaDec_alphaEnc _ (by omega)
    have e2 : alphaDec (alphaEnc (a % 4 * 16 + b / 16)) = some (a % 4 * 16 + b / 16) :=
      alphaDec_alphaEnc _ (by omega)
    have e3 : alphaDec (alphaEnc (b % 16 * 4)) = some (b % 16 * 4) :=
      alphaDec_alphaEnc _ (by omega)
    simp only [b64encode, b64decode, e1, e2, e3]
    have h1 : a / 4 * 4 + (a % 4 * 16 + b / 16) / 16 = a := by omega
    have h2 : (a % 4 * 16 + b / 16) % 16 * 16 + b % 16 * 4 / 4 = b := by omega
    rw [h1, h2]
  | case4 a b c rest ih =>
    intro h
    have ha : a < 256 := h a (by simp)
    have hb : b < 256 := h b (by simp)
    have hc : c < 256 := h c (by simp)
    have hrest : bytesOk rest := by
      intro x hx; exact h x (by simp [hx])
    have e1 : alphaDec (alphaEnc (a / 4)) = some (a / 4) :=
      alphaDec_alphaEnc _ (by omega)
    have e2 : alphaDec (alphaEnc (a % 4 * 16 + b / 16)) = some (a % 4 * 16 + b / 16) :=
      alphaDec_alphaEnc _ (by omega)
    have e3 : alphaDec (alphaEnc (b % 16 * 4 + c / 64)) = some (b % 16 * 4 + c / 64) :=
      alphaDec_alphaEnc _ (by omega)
    have e4 : alphaDec (alphaEnc (c % 64)) = some (c % 64) :=
      alphaDec_alphaEnc _ (by omega)
    simp only [b64encode, b64decode, e1, e2, e3, e4, ih hrest]
    have h1 : a / 4 * 4 + (a % 4 * 16 + b / 16) / 16 = a := by omega
    have h2 : (a % 4 * 16 + b / 16) % 16 * 16 + (b % 16 * 4 + c / 64) / 4 = b := by omega
    have h3 : (b % 16 * 4 + c / 64) % 4 * 64 + c % 64 = c := by omega
    rw [h1, h2, h3]


theorem take_append_len (s t : List Nat) : (s ++ t).take s.length = s := by
  induction s with
  | nil => rfl
  | cons a s ih => simp [List.cons_append, List.length_cons, List.take_succ_cons, ih]

theorem drop_append_len (s t : List Nat) : (s ++ t).drop s.length = t := by
  induction s with
  | nil => rfl
  | cons a s ih => simp [List.cons_append, List.length_cons, List.drop_succ_cons, ih]

theorem natOfBytes8_natToBytes8 (n : Nat) (h : n < W64) :
    natOfBytes8 (n % 256) (n / 256 % 256) (n / 65536 % 256) (n / 16777216 % 256)
      (n / 4294967296 % 256) (n / 1099511627776 % 256)
      (n / 281474976710656 % 256) (n / 72057594037927936 % 256) = n := by
  unfold natOfBytes8
  unfold W64 at h
  omega

theorem deserNat8_natToBytes8 (n : Nat) (rest : List Nat) (h : n < W64) :
    deserNat8 (natToBytes8 n ++ rest) = some (n, rest) := by
  simp only [natToBytes8, List.cons_append, List.nil_append, deserNat8,
    natOfBytes8_natToBytes8 n h]

theorem deserBytes_serBytes (s rest : List Nat) (h : s.length < W64) :
    deserBytes (serBytes s ++ rest) = some (s, rest) := by
  unfold serBytes deserBytes
  rw [List.append_assoc, deserNat8_natToBytes8 _ _ h]
  have hle : s.length ≤ (s ++ rest).length := by
    simp [List.length_append]
  dsimp only
  rw [if_pos hle, take_append_len, drop_append_len]

theorem deserOptStr_serOptStr (o : Option (List Nat)) (rest : List Nat)
    (h : optStrOk o) : deserOptStr (serOptStr o ++ rest) = some (o, rest) := by
  cases o with
  | none => rfl
  | some s =>
    simp only [serOptStr, List.cons_append, deserOptStr,
      deserBytes_serBytes s rest h.2]

theorem deserOptNat_serOptNat (o : Option Nat) (rest : List Nat)
    (h : optNatOk o) : deserOptNat (serOptNat o ++ rest) = some (o, rest) := by
  cases o with
  | none => rfl
  | some n =>
    simp only [serOptNat, List.cons_append, deserOptNat,
      deserNat8_natToBytes8 n rest h]

theorem decodeClaims_encodeClaims (c : Registered) (hc : c.wf) :
    decodeClaims (encodeClaims c) = some c := by
  obtain ⟨h1, h2, h3, h4⟩ := hc
  unfold encodeClaims decodeClaims
  rw [List.append_assoc, List.append_assoc]
  rw [deserOptStr_serOptStr _ _ h1]
  dsimp only
  rw [deserOptStr_serOptStr _ _ h2]
  dsimp only
  rw [deserOptNat_serOptNat _ _ h3]
  dsimp only
  rw [show serOptNat c.nbf = serOptNat c.nbf ++ [] by simp]
  rw [deserOptNat_serOptNat _ _ h4]

theorem bytesOk_append (s t : List Nat) (hs : bytesOk s) (ht : bytesOk t) :
    bytesOk (s ++ t) := by
  intro x hx
  rcases List.mem_append.mp hx with h | h
  · exact hs x h
  · exact ht x h

theorem natToBytes8_ok (n : Nat) : bytesOk (natToBytes8 n) := by
  intro x hx
  simp only [natToBytes8, List.mem_cons, List.not_mem_nil, or_false] at hx
  rcases hx with h | h | h | h | h | h | h | h <;> subst h <;> omega

theorem serBytes_ok (s : List Nat) (h : bytesOk s) : bytesOk (serBytes s) :=
  bytesOk_append _ _ (natToBytes8_ok _) h

theorem serOptStr_ok (o : Option (List Nat)) (h : optStrOk o) :
    bytesOk (serOptStr o) := by
  cases o with
  | none => intro x hx; simp only [serOptStr, List.mem_singleton] at hx; omega
  | some s =>
    intro x hx
    simp only [serOptStr, List.mem_cons] at hx
    rcases hx with h' | h'
    · omega
    · exact serBytes_ok s h.1 x h'

theorem serOptNat_ok (o : Option Nat) : bytesOk (serOptNat o) := by
  cases o with
  | none => intro x hx; simp only [serOptNat, List.mem_singleton] at hx; omega
  | some n =>
    intro x hx
    simp only [serOptNat, List.mem_cons] at hx
    rcases hx with h' | h'
    · omega
    · exact natToBytes8_ok n x h'

theorem encodeClaims_ok (c : Registered) (hc : c.wf) : bytesOk (encodeClaims c) := by
  obtain ⟨h1, h2, h3, h4⟩ := hc
  exact bytesOk_append _ _
    (bytesOk_append _ _
      (bytesOk_append _ _ (serOptStr_ok _ h1) (serOptStr_ok _ h2)) (serOptNat_ok _))
    (serOptNat_ok _)

theorem headerBytes_ok : bytesOk headerBytes := by decide

theorem macDigest_ok (key msg : List Nat) : bytesOk (macDigest key msg) :=
  natToBytes8_ok _

theorem splitDots_no_dot (s : List Nat) (h : 46 ∉ s) : splitDots s = [s] := by
  induction s with
  | nil => rfl
  | cons x xs ih =>
    have hx : x ≠ 46 := fun hc => h (hc ▸ List.mem_cons_self x xs)
    have hxs : 46 ∉ xs := fun hc => h (List.mem_cons_of_mem _ hc)
    simp only [splitDots, if_neg hx, ih hxs]

theorem splitDots_append (s t : List Nat) (h : 46 ∉ s) :
    splitDots (s ++ 46 :: t) = s :: splitDots t := by
  induction s with
  | nil => simp [splitDots]
  | cons x xs ih =>
    have hx : x ≠ 46 := fun hc => h (hc ▸ List.mem_cons_self x xs)
    have hxs : 46 ∉ xs := fun hc => h (List.mem_cons_of_mem _ hc)
    simp only [List.cons_append, splitDots, if_neg hx, List.append_eq]
    rw [ih hxs]

/-- C1: Round trip of the token codec — for every well-formed claim set
`c` and secret key `k`, verifying the string produced by signing `c` with
`k` succeeds and returns exactly `c`. -/
theorem verify_signToken_roundtrip (c : Registered) (key : List Nat) (hc : c.wf) :
    verifyToken (signToken c key) key = .ok c := by
  unfold verifyToken signToken signedInput
  rw [List.append_assoc, List.cons_append]
  rw [splitDots_append _ _ (b64encode_no_dot _), splitDots_append _ _ (b64encode_no_dot _),
    splitDots_no_dot _ (b64encode_no_dot _)]
  dsimp only
  rw [b64_roundtrip headerBytes headerBytes_ok,
    b64_roundtrip _ (encodeClaims_ok c hc),
    b64_roundtrip _ (macDigest_ok key _)]
  dsimp only
  rw [if_pos rfl, decodeClaims_encodeClaims c hc]

/-- Witness for C1 at a concrete claim set and key. -/
theorem verify_signToken_roundtrip_witness :
    (Registered.mk (some [105, 115]) (some [99, 97, 114, 108]) (some 1000) (some 900)).wf ∧
    verifyToken
        (signToken
          (Registered.mk (some [105, 115]) (some [99, 97, 114, 108]) (some 1000) (some 900))
          [107, 101, 121])
        [107, 101, 121] =
      .ok (Registered.mk (some [105, 115]) (some [99, 97, 114, 108]) (some 1000) (some 900)) :=
  ⟨by decide, verify_signToken_roundtrip _ _ (by decide)⟩

/-- C2: Time-window check in the middleware — for every request carrying a
token whose signature verifies, `now < nbf` yields `NotYetValid` and an
unauthenticated request, `now > exp` (with the `nbf` check passed) yields
`Expired` and an unauthenticated request, otherwise the token is
`Verified`; the boundary cases `now = nbf` and `now = exp` are accepted. -/
theorem invoke_time_window (sm : SessionMiddleware) (req : RequestModel) (now : Nat)
    (t : List Nat) (claims : Registered)
    (ht : readToken sm req = some t)
    (hv : verifyToken t sm.server_key = .ok claims) :
    (∀ nbf, claims.nbf = some nbf → now < nbf →
        (invoke sm req now).outcome = .notYetValid ∧ (invoke sm req now).session = none)
  ∧ (∀ e, claims.exp = some e → e < now → nbfRejects claims now = false →
        (invoke sm req now).outcome = .expired ∧ (invoke sm req now).session = none)
  ∧ (nbfRejects claims now = false → expRejects claims now = false →
        (invoke sm req now).outcome = .verified)
  ∧ (claims.nbf = some now → claims.exp = some now →
        (invoke sm req now).outcome = .verified) := by
  have hbase : invoke sm req now =
      (if nbfRejects claims now then ⟨.Continue, none, some sm, .notYetValid⟩
       else if expRejects claims now then ⟨.Continue, none, some sm, .expired⟩
       else (⟨.Continue, claims.sub.map Session.mk, some sm, .verified⟩ : InvokeResult)) := by
    unfold invoke
    rw [ht]
    dsimp only
    rw [hv]
  refine ⟨?_, ?_, ?_, ?_⟩
  · intro nbf hnbf hlt
    have hn : nbfRejects claims now = true := by simp [nbfRejects, hnbf, hlt]
    rw [hbase, hn]
    exact ⟨rfl, rfl⟩
  · intro e hexp hlt hn
    have he : expRejects claims now = true := by simp [expRejects, hexp, hlt]
    rw [hbase, hn, he]
    exact ⟨rfl, rfl⟩
  · intro hn he
    rw [hbase, hn, he]
    rfl
  · intro hnbf hexp
    have hn : nbfRejects claims now = false := by simp [nbfRejects, hnbf]
    have he : expRejects claims now = false := by simp [expRejects, hexp]
    rw [hbase, hn, he]
    rfl

set_option maxRecDepth 100000 in
/-- Witness for C2 at a concrete verified token sitting exactly on the
`nbf = exp = now` boundary. -/
theorem invoke_time_window_witness :
    (invoke ⟨[107], none, 60, .Cookie [106, 119, 116]⟩
        ⟨some [([106, 119, 116],
            signToken ⟨none, some [99], some 1000, some 1000⟩ [107])], none⟩
        1000).outcome = .verified :=
  (invoke_time_window _ _ 1000
    (signToken ⟨none, some [99], some 1000, some 1000⟩ [107])
    ⟨none, some [99], some 1000, some 1000⟩
    (by decide) (by decide)).2.2.2 rfl rfl

/-- C3: The middleware never rejects a request — for every request (no
token, malformed token, bad signature, not yet valid, expired, verified)
the invocation returns `Continue`, never halting or erroring. -/
theorem invoke_always_continues (sm : SessionMiddleware) (req : RequestModel) (now : Nat) :
    (invoke sm req now).action = .Continue := by
  unfold invoke
  cases h : readToken sm req with
  | none => rfl
  | some s =>
    dsimp only
    cases hv : verifyToken s sm.server_key with
    | ok claims =>
      dsimp only
      split
      · rfl
      · split <;> rfl
    | err e => cases e <;> rfl

/-- C4: Login mints a correct token and cookie — when a configuration with
a cookie transport is attached to the response, `set_jwt_user` builds a
claim set with `sub = user`, `nbf = now`, `exp = now + expiration_time`
and the configured issuer, signs it with the configured key, and sets a
response cookie with the configured name, the token as value, and
`max_age` equal to the configured validity duration in seconds. -/
theorem set_jwt_user_mints_cookie (res : ResponseModel) (user : List Nat) (now : Nat)
    (sm : SessionMiddleware) (name : List Nat)
    (hc : res.config = some sm) (hl : sm.location = TokenLocation.Cookie name) :
    set_jwt_user res user now =
      { res with setCookie := some [⟨name,
          signToken
            { iss := sm.issuer
              sub := some user
              exp := some (now + sm.expiration_time)
              nbf := some now } sm.server_key,
          some sm.expiration_time⟩] } := by
  unfold set_jwt_user make_token
  rw [hc]
  dsimp only
  rw [hl]

/-- Witness for C4 at a concrete configuration, user and clock value. -/
theorem set_jwt_user_mints_cookie_witness :
    set_jwt_user ⟨some ⟨[115], some [105], 60, .Cookie [106]⟩, none⟩ [99, 97, 114, 108] 500 =
      ⟨some ⟨[115], some [105], 60, .Cookie [106]⟩,
       some [⟨[106],
          signToken ⟨some [105], some [99, 97, 114, 108], some 560, some 500⟩ [115],
          some 60⟩]⟩ :=
  set_jwt_user_mints_cookie _ _ 500 ⟨[115], some [105], 60, .Cookie [106]⟩ [106] rfl rfl

/-- C5: On a `Verified` token whose claim set carries a subject, a session
with that subject as identity is attached to the request and
`authorized_user` returns it; on any request whose outcome is not
`Verified`, `authorized_user` returns `none`. -/
theorem verified_session_subject :
    (∀ (sm : SessionMiddleware) (req : RequestModel) (now : Nat)
        (t u : List Nat) (claims : Registered),
        readToken sm req = some t →
        verifyToken t sm.server_key = .ok claims →
        nbfRejects claims now = false →
        expRejects claims now = false →
        claims.sub = some u →
        (invoke sm req now).session = some ⟨u⟩ ∧
        authorized_user (invoke sm req now).session = some u)
  ∧ (∀ (sm : SessionMiddleware) (req : RequestModel) (now : Nat),
        (invoke sm req now).outcome ≠ .verified →
        authorized_user (invoke sm req now).session = none) := by
  constructor
  · intro sm req now t u claims ht hv hn he hs
    have hbase : invoke sm req now =
        ⟨.Continue, claims.sub.map Session.mk, some sm, .verified⟩ := by
      unfold invoke
      rw [ht]
      dsimp only
      rw [hv]
      dsimp only
      rw [hn, he]
      rfl
    rw [hbase, hs]
    exact ⟨rfl, rfl⟩
  · intro sm req now hout
    revert hout
    unfold invoke
    cases h : readToken sm req with
    | none => intro _; rfl
    | some s =>
      dsimp only
      cases hv : verifyToken s sm.server_key with
      | ok claims =>
        dsimp only
        split
        · intro _; rfl
        · split
          · intro _; rfl
          · intro hout; exact absurd rfl hout
      | err e => cases e <;> intro _ <;> rfl

set_option maxRecDepth 100000 in
/-- Witness for C5 at a concrete verified token carrying subject `u`. -/
theorem verified_session_subject_witness :
    authorized_user
      (invoke ⟨[55], none, 60, .Cookie [106]⟩
        ⟨some [([106], signToken ⟨none, some [117], some 600, some 400⟩ [55])], none⟩
        500).session = some [117] :=
  (verified_session_subject.1 _ _ 500
    (signToken ⟨none, some [117], some 600, some 400⟩ [55]) [117]
    ⟨none, some [117], some 600, some 400⟩
    (by decide) (by decide) (by decide) (by decide) rfl).2

/-- C6: Missing configuration is absorbed — for every response without an
attached configuration, `set_jwt_user` and `clear_jwt_user` leave the
response unchanged (no cookie is set, nothing fails). -/
theorem missing_config_noop (res : ResponseModel) (user : List Nat) (now : Nat)
    (h : res.config = none) :
    set_jwt_user res user now = res ∧ clear_jwt_user res = res := by
  unfold set_jwt_user clear_jwt_user
  rw [h]
  exact ⟨rfl, rfl⟩

/-- Witness for C6 at a concrete configuration-less response. -/
theorem missing_config_noop_witness :
    set_jwt_user ⟨none, none⟩ [99] 7 = ⟨none, none⟩ ∧
    clear_jwt_user ⟨none, none⟩ = ⟨none, none⟩ :=
  missing_config_noop ⟨none, none⟩ [99] 7 rfl

/-- C7: Logout clears the cookie — whenever a configuration with a cookie
transport is attached to the response, `clear_jwt_user` sets a response
cookie with the configured name, the empty value, and `max_age = 0`. -/
theorem clear_jwt_user_clears_cookie (res : ResponseModel)
    (sm : SessionMiddleware) (name : List Nat)
    (hc : res.config = some sm) (hl : sm.location = TokenLocation.Cookie name) :
    clear_jwt_user res = { res with setCookie := some [⟨name, [], some 0⟩] } := by
  unfold clear_jwt_user
  rw [hc]
  dsimp only
  rw [hl]

/-- Witness for C7 at a concrete cookie-transport configuration. -/
theorem clear_jwt_user_clears_cookie_witness :
    clear_jwt_user ⟨some ⟨[115], none, 60, .Cookie [106, 119, 116]⟩, none⟩ =
      ⟨some ⟨[115], none, 60, .Cookie [106, 119, 116]⟩,
       some [⟨[106, 119, 116], [], some 0⟩]⟩ :=
  clear_jwt_user_clears_cookie _ ⟨[115], none, 60, .Cookie [106, 119, 116]⟩
    [106, 119, 116] rfl rfl

theorem cookieLookup_eq_find (name : List Nat) (cs : List (List Nat × List Nat)) :
    cookieLookup name cs = (cs.find? (fun c => c.1 == name)).map Prod.snd := by
  induction cs with
  | nil => rfl
  | cons c rest ih =>
    unfold cookieLookup
    by_cases h : c.1 = name
    · rw [if_pos h, List.find?_cons_of_pos _ (by simp [h])]
      rfl
    · rw [if_neg h, List.find?_cons_of_neg _ (by simp [h]), ih]

/-- C8: Cookie transport read — for every request and cookie name,
`get_cookie` returns the value of the first cookie in the request's cookie
header whose name equals the wanted name exactly, and `none` when there is
no cookie header or no name matches. -/
theorem get_cookie_first_match (req : RequestModel) (name : List Nat) :
    get_cookie req name =
      Option.map Prod.snd
        (Option.bind req.cookies (List.find? (fun c => c.1 == name))) := by
  unfold get_cookie
  cases req.cookies with
  | none => rfl
  | some cs => exact cookieLookup_eq_find name cs

/-- C9: The transport-location type offers exactly the `Cookie(name)` and
`AuthorizationHeader` variants; for `AuthorizationHeader`, reading returns
the raw value of the authorization-style request header (no scheme
stripping), while writing and clearing leave the response unchanged. -/
theorem transport_variants :
    (∀ loc : TokenLocation,
        (∃ n, loc = TokenLocation.Cookie n) ∨ loc = TokenLocation.AuthorizationHeader)
  ∧ (∀ (sm : SessionMiddleware) (req : RequestModel),
        sm.location = TokenLocation.AuthorizationHeader →
        readToken sm req = req.authHeader)
  ∧ (∀ (res : ResponseModel) (sm : SessionMiddleware) (user : List Nat) (now : Nat),
        res.config = some sm → sm.location = TokenLocation.AuthorizationHeader →
        set_jwt_user res user now = res)
  ∧ (∀ (res : ResponseModel) (sm : SessionMiddleware),
        res.config = some sm → sm.location = TokenLocation.AuthorizationHeader →
        clear_jwt_user res = res) := by
  refine ⟨?_, ?_, ?_, ?_⟩
  · intro loc
    cases loc with
    | Cookie n => exact Or.inl ⟨n, rfl⟩
    | AuthorizationHeader => exact Or.inr rfl
  · intro sm req h
    unfold readToken
    rw [h]
  · intro res sm user now hc hl
    unfold set_jwt_user make_token
    rw [hc]
    dsimp only
    rw [hl]
  · intro res sm hc hl
    unfold clear_jwt_user
    rw [hc]
    dsimp only
    rw [hl]

/-- Witness for C9 at a concrete header-transport configuration. -/
theorem transport_variants_witness :
    readToken ⟨[115], none, 60, .AuthorizationHeader⟩ ⟨none, some [116, 111, 107]⟩ =
      some [116, 111, 107] ∧
    set_jwt_user ⟨some ⟨[115], none, 60, .AuthorizationHeader⟩, none⟩ [99] 9 =
      ⟨some ⟨[115], none, 60, .AuthorizationHeader⟩, none⟩ ∧
    clear_jwt_user ⟨some ⟨[115], none, 60, .AuthorizationHeader⟩, none⟩ =
      ⟨some ⟨[115], none, 60, .AuthorizationHeader⟩, none⟩ :=
  ⟨transport_variants.2.1 ⟨[115], none, 60, .AuthorizationHeader⟩ ⟨none, some [116, 111, 107]⟩ rfl,
   transport_variants.2.2.1 _ ⟨[115], none, 60, .AuthorizationHeader⟩ [99] 9 rfl rfl,
   transport_variants.2.2.2 _ ⟨[115], none, 60, .AuthorizationHeader⟩ rfl rfl⟩

set_option maxRecDepth 100000 in
/-- C10 counterexample: a token that parses and whose signature verifies,
with no `exp` claim but a future `nbf` claim, is not accepted at the
current time `0` — the middleware classifies it `NotYetValid` and attaches
no session, refuting "accepted at any current time". -/
theorem no_exp_token_rejected_for_nbf :
    verifyToken (signToken ⟨none, some [117], none, some 1000⟩ [107]) [107] =
      .ok ⟨none, some [117], none, some 1000⟩ ∧
    (⟨none, some [117], none, some 1000⟩ : Registered).exp = none ∧
    (invoke ⟨[107], none, 60, .Cookie [106]⟩
        ⟨some [([106], signToken ⟨none, some [117], none, some 1000⟩ [107])], none⟩
        0).outcome = .notYetValid ∧
    (invoke ⟨[107], none, 60, .Cookie [106]⟩
        ⟨some [([106], signToken ⟨none, some [117], none, some 1000⟩ [107])], none⟩
        0).session = none := by
  refine ⟨by decide, rfl, by decide, by decide⟩

/-- C10 (amended): for every request carrying a token that parses and
whose signature verifies, a claim set without an `exp` value is never
treated as `Expired` — the expiry comparison is skipped — and the token is
accepted at any current time provided the `nbf` check passes (in
particular whenever `nbf` is also absent); likewise a missing `nbf` value
skips the not-yet-valid check. -/
theorem absent_claims_skip_checks (sm : SessionMiddleware) (req : RequestModel) (now : Nat)
    (t : List Nat) (claims : Registered)
    (ht : readToken sm req = some t)
    (hv : verifyToken t sm.server_key = .ok claims) :
    (claims.exp = none → (invoke sm req now).outcome ≠ .expired)
  ∧ (claims.exp = none → nbfRejects claims now = false →
        (invoke sm req now).outcome = .verified)
  ∧ (claims.nbf = none → (invoke sm req now).outcome ≠ .notYetValid)
  ∧ (claims.exp = none → claims.nbf = none →
        (invoke sm req now).outcome = .verified) := by
  have hbase : invoke sm req now =
      (if nbfRejects claims now then ⟨.Continue, none, some sm, .notYetValid⟩
       else if expRejects claims now then ⟨.Continue, none, some sm, .expired⟩
       else (⟨.Continue, claims.sub.map Session.mk, some sm, .verified⟩ : InvokeResult)) := by
    unfold invoke
    rw [ht]
    dsimp only
    rw [hv]
  refine ⟨?_, ?_, ?_, ?_⟩
  · intro hexp
    have he : expRejects claims now = false := by simp [expRejects, hexp]
    cases hn : nbfRejects claims now with
    | true => rw [hbase, hn]; intro hc; exact Outcome.noConfusion hc
    | false => rw [hbase, hn, he]; intro hc; exact Outcome.noConfusion hc
  · intro hexp hn
    have he : expRejects claims now = false := by simp [expRejects, hexp]
    rw [hbase, hn, he]
    rfl
  · intro hnbf
    have hn : nbfRejects claims now = false := by simp [nbfRejects, hnbf]
    cases he : expRejects claims now with
    | true => rw [hbase, hn, he]; intro hc; exact Outcome.noConfusion hc
    | false => rw [hbase, hn, he]; intro hc; exact Outcome.noConfusion hc
  · intro hexp hnbf
    have hn : nbfRejects claims now = false := by simp [nbfRejects, hnbf]
    have he : expRejects claims now = false := by simp [expRejects, hexp]
    rw [hbase, hn, he]
    rfl

set_option maxRecDepth 100000 in
/-- Witness for the amended C10 at a concrete verified token carrying
neither an `exp` nor an `nbf` claim, accepted at an arbitrary time. -/
theorem absent_claims_skip_checks_witness :
    (invoke ⟨[88], none, 60, .Cookie [106]⟩
        ⟨some [([106], signToken ⟨none, some [118], none, none⟩ [88])], none⟩
        123456789).outcome = .verified :=
  (absent_claims_skip_checks _ _ 123456789
    (signToken ⟨none, some [118], none, none⟩ [88])
    ⟨none, some [118], none, none⟩
    (by decide) (by decide)).2.2.2 rfl rfl
